import Mathlib

/-!
Verification of the werpy_weighted word-error-rate library.

The development shallowly embeds `src/werpy/metrics.py` (functions
`calculations` and `metrics`) and `src/werpy/wers.py` (function `wers`).
Machine floats of the source are modelled as exact rationals; the
Python `while` loop of the backtrace is modelled with explicit fuel,
since for some inputs the loop body leaves the state unchanged and the
loop never exits.
-/

namespace Werpy

/-- Characters treated as whitespace by Python `str.split()` (ASCII range). -/
def pyWhitespace (c : Char) : Bool :=
  c = ' ' ∨ c = '\t' ∨ c = '\n' ∨ c = '\r' ∨ c = '\x0b' ∨ c = '\x0c'

/-- Helper for `tokenize`: walk the characters, accumulating the current
word in reverse; whitespace ends the current word (empty words dropped). -/
def tokenizeAux : List Char → List Char → List String
  | [], cur => if cur.isEmpty then [] else [String.mk cur.reverse]
  | c :: rest, cur =>
      if pyWhitespace c then
        if cur.isEmpty then tokenizeAux rest []
        else String.mk cur.reverse :: tokenizeAux rest []
      else tokenizeAux rest (c :: cur)

/-- Model of Python `str.split()` with no argument, as used by
`calculations`: split on runs of whitespace, discarding empty tokens. -/
def tokenize (s : String) : List String := tokenizeAux s.data []

/-- The nine values returned by `calculations` (the ragged numpy array of the
source, as a record).  `wer` is the exact rational `ld / m`. -/
structure EditRecord where
  wer : ℚ
  ld : Nat
  m : Nat
  insertions : Nat
  deletions : Nat
  substitutions : Nat
  inserted_words : List String
  deleted_words : List String
  substituted_words : List (String × String)
deriving DecidableEq, Repr

/-- Outcome of one `calculations` call that finishes: either the Python
`ZeroDivisionError` raised by `wer = ld / m` when `m = 0`, or the record
of the nine returned values. -/
inductive CalcResult where
  | zeroDivisionError : CalcResult
  | ok : EditRecord → CalcResult
deriving DecidableEq, Repr

/-- The edit-distance matrix `ldm` of `calculations`, as a function of the
cell indices, with explicit fuel so that the definition is structurally
recursive (any fuel `≥ i + j` computes cell `(i, j)`, see `ldmF_congr`).
Border: `ldm[i,0] = i`, `ldm[0,j] = j`; an inner cell compares the words
`reference_word[i-1]` and `hypothesis_word[j-1]` and otherwise takes the
minimum of substitution cost `+4`, insertion cost `+3`, deletion cost `+3`. -/
def ldmF : Nat → List String → List String → Nat → Nat → Nat
  | _, _, _, 0, j => j
  | _, _, _, i + 1, 0 => i + 1
  | 0, _, _, _ + 1, _ + 1 => 0
  | f + 1, rw, hw, i + 1, j + 1 =>
      if rw.getD i "" = hw.getD j "" then
        ldmF f rw hw i j
      else
        min (ldmF f rw hw i j + 4)
          (min (ldmF f rw hw (i + 1) j + 3) (ldmF f rw hw i (j + 1) + 3))

/-- Cell `(i, j)` of the edit-distance matrix built by `calculations`. -/
def ldm (rw hw : List String) (i j : Nat) : Nat :=
  ldmF (i + j) rw hw i j

/-- State of the backtrace `while` loop of `calculations`: the indices
`i`, `j` and the accumulated counts and word lists (appended in
backtrace order, i.e. right to left). -/
structure BTState where
  i : Nat
  j : Nat
  insertions : Nat
  deletions : Nat
  substitutions : Nat
  inserted_words : List String
  deleted_words : List String
  substituted_words : List (String × String)
deriving DecidableEq, Repr

/-- One iteration of the backtrace loop body of `calculations`.  The four
conditions are tested in source order (match, substitution `+1`, insertion
`+1`, deletion `+1`); when none holds the body changes nothing, so the
Python loop repeats forever on the same state. -/
def btStep (rw hw : List String) (s : BTState) : BTState :=
  if 0 < s.i ∧ 0 < s.j ∧ rw.getD (s.i - 1) "" = hw.getD (s.j - 1) "" then
    ⟨s.i - 1, s.j - 1, s.insertions, s.deletions, s.substitutions,
      s.inserted_words, s.deleted_words, s.substituted_words⟩
  else if 0 < s.i ∧ 0 < s.j ∧ ldm rw hw s.i s.j = ldm rw hw (s.i - 1) (s.j - 1) + 1 then
    ⟨s.i - 1, s.j - 1, s.insertions, s.deletions, s.substitutions + 1,
      s.inserted_words, s.deleted_words,
      s.substituted_words ++ [(rw.getD (s.i - 1) "", hw.getD (s.j - 1) "")]⟩
  else if 0 < s.j ∧ ldm rw hw s.i s.j = ldm rw hw s.i (s.j - 1) + 1 then
    ⟨s.i, s.j - 1, s.insertions + 1, s.deletions, s.substitutions,
      s.inserted_words ++ [hw.getD (s.j - 1) ""], s.deleted_words, s.substituted_words⟩
  else if 0 < s.i ∧ ldm rw hw s.i s.j = ldm rw hw (s.i - 1) s.j + 1 then
    ⟨s.i - 1, s.j, s.insertions, s.deletions + 1, s.substitutions,
      s.inserted_words, s.deleted_words ++ [rw.getD (s.i - 1) ""], s.substituted_words⟩
  else
    s

/-- The backtrace loop `while i > 0 or j > 0`, run with explicit fuel:
`some s` when the loop exits within `fuel` iterations, `none` otherwise. -/
def btRun (rw hw : List String) : Nat → BTState → Option BTState
  | 0, s => if s.i = 0 ∧ s.j = 0 then some s else none
  | fuel + 1, s => if s.i = 0 ∧ s.j = 0 then some s else btRun rw hw fuel (btStep rw hw s)

/-- Initial backtrace state `(i, j) = (m, n)` with empty accumulators. -/
def btInit (rw hw : List String) : BTState :=
  ⟨rw.length, hw.length, 0, 0, 0, [], [], []⟩

/-- The backtrace loop of `calculations` exits, starting from `(m, n)`. -/
def btTerminates (rw hw : List String) : Prop :=
  ∃ fuel, (btRun rw hw fuel (btInit rw hw)).isSome

/-- The `calculations` function of `src/werpy/metrics.py`.  After the fill
loops the Python loop variables `i`, `j` always equal `m`, `n`, so
`ld = ldm[m][n]`.  `wer = ld / m` is computed before the backtrace and
raises `ZeroDivisionError` when `m = 0`.  Each productive backtrace
iteration decreases `i + j`, and an iteration in which no branch fires
repeats the same state forever, so fuel `m + n` is exact: the loop exits
within `m + n` iterations or never (`none`, the call does not return). -/
def calculations (reference hypothesis : String) : Option CalcResult :=
  let reference_word := tokenize reference
  let hypothesis_word := tokenize hypothesis
  let m := reference_word.length
  let n := hypothesis_word.length
  let ld := ldm reference_word hypothesis_word m n
  if m = 0 then some CalcResult.zeroDivisionError
  else
    match btRun reference_word hypothesis_word (m + n) (btInit reference_word hypothesis_word) with
    | none => none
    | some s =>
        some (CalcResult.ok
          ⟨(ld : ℚ) / (m : ℚ), ld, m, s.insertions, s.deletions, s.substitutions,
            s.inserted_words.reverse, s.deleted_words.reverse, s.substituted_words.reverse⟩)

/-- An element of a reference/hypothesis collection passed to `metrics` or
`wers`: either a Python string, or a value of some other type (e.g. a
numeric), on which `.split()` raises `AttributeError`. -/
inductive TextVal where
  | str : String → TextVal
  | numeric : TextVal
deriving DecidableEq, Repr

/-- The Python exception kinds that `metrics` can raise: `ValueError`
(numpy shape mismatch or size-0 vectorize input), `AttributeError`
(`.split()` on a non-string), `ZeroDivisionError` (empty reference). -/
inductive PyErr where
  | valueError : PyErr
  | attributeError : PyErr
  | zeroDivisionError : PyErr
deriving DecidableEq, Repr

/-- Outcome of one `calculations` call on collection elements: `none` when
the backtrace loop never exits, otherwise an exception or a record. -/
inductive CalcVResult where
  | error : PyErr → CalcVResult
  | ok : EditRecord → CalcVResult
deriving DecidableEq, Repr

/-- `calculations` applied to collection elements: a non-string element
raises `AttributeError` at `reference.split()` / `hypothesis.split()`,
before anything else. -/
def calcV : TextVal → TextVal → Option CalcVResult
  | TextVal.str r, TextVal.str h =>
      match calculations r h with
      | none => none
      | some CalcResult.zeroDivisionError => some (CalcVResult.error PyErr.zeroDivisionError)
      | some (CalcResult.ok e) => some (CalcVResult.ok e)
  | _, _ => some (CalcVResult.error PyErr.attributeError)

/-- Outcome of a finished `metrics` call on two collections: an exception
or the list of per-pair edit records, in input order. -/
inductive MetricsResult where
  | error : PyErr → MetricsResult
  | ok : List EditRecord → MetricsResult
deriving DecidableEq, Repr

/-- Numpy 1-D broadcasting of two lengths, as used by `np.vectorize`:
equal lengths broadcast to themselves, and a length-1 collection
broadcasts against any other length; anything else is a shape mismatch. -/
def broadcastLen (a b : Nat) : Option Nat :=
  if a = b then some a else if a = 1 then some b else if b = 1 then some a else none

/-- Stretch a collection to the broadcast length `k`: a length-1
collection is repeated `k` times, any other is already of length `k`. -/
def bcast (l : List TextVal) (k : Nat) : List TextVal :=
  if l.length = 1 then List.replicate k (l.getD 0 (TextVal.str "")) else l

/-- Elementwise application of `calculations` to the broadcast pairs, in
input order, as performed by the ufunc made by `np.vectorize`: the first
non-termination or exception preempts the rest. -/
def runAll : List (TextVal × TextVal) → Option MetricsResult
  | [] => some (MetricsResult.ok [])
  | p :: rest =>
      match calcV p.1 p.2 with
      | none => none
      | some (CalcVResult.error e) => some (MetricsResult.error e)
      | some (CalcVResult.ok r) =>
          match runAll rest with
          | none => none
          | some (MetricsResult.error e) => some (MetricsResult.error e)
          | some (MetricsResult.ok l) => some (MetricsResult.ok (r :: l))

/-- The `metrics` function of `src/werpy/metrics.py` applied to two
collections, i.e. `np.vectorize(calculations)` on two 1-D arrays.
Following numpy's `vectorize.__call__`: with no `otypes`, a size-0 input
raises `ValueError`; then the output type is probed by calling the
function once on the first element of each input (an exception or
non-termination there preempts everything); then the inputs are broadcast
(`ValueError` on incompatible shapes) and the function is applied
elementwise in input order. -/
def metrics (rs hs : List TextVal) : Option MetricsResult :=
  if rs.length = 0 ∨ hs.length = 0 then some (MetricsResult.error PyErr.valueError)
  else
    match calcV (rs.getD 0 (TextVal.str "")) (hs.getD 0 (TextVal.str "")) with
    | none => none
    | some (CalcVResult.error e) => some (MetricsResult.error e)
    | some (CalcVResult.ok _) =>
        match broadcastLen rs.length hs.length with
        | none => some (MetricsResult.error PyErr.valueError)
        | some k => runAll ((bcast rs k).zip (bcast hs k))

/-- Outcome of a finished `wers` call on two collections: an exception
propagated to the caller, a caught exception (the diagnostic is printed
and the function returns `None`, i.e. no result), or the list of WERs. -/
inductive WersResult where
  | uncaught : PyErr → WersResult
  | caught : String → WersResult
  | ok : List ℚ → WersResult
deriving DecidableEq, Repr

/-- Outcome of a finished `wers` call on a single pair. -/
inductive WersScalarResult where
  | uncaught : PyErr → WersScalarResult
  | caught : String → WersScalarResult
  | ok : ℚ → WersScalarResult
deriving DecidableEq, Repr

/-- The diagnostic printed by `wers` when it catches a `ValueError`. -/
def valueErrorDiagnostic : String :=
  "ValueError: The Reference and Hypothesis input parameters must have the same number of elements."

/-- The diagnostic printed by `wers` when it catches an `AttributeError`
(the source concatenates the message over two lines). -/
def attributeErrorDiagnostic : String :=
  "AttributeError: All text should be in a string format. Please check your input does not include any Numeric data types."

/-- The `wers` function of `src/werpy/wers.py` on two collections: it
calls `metrics`, catches `ValueError` and `AttributeError` (printing a
diagnostic and returning `None`), lets any other exception propagate, and
otherwise projects the first column (the `wer` field of each record). -/
def wers (rs hs : List TextVal) : Option WersResult :=
  match metrics rs hs with
  | none => none
  | some (MetricsResult.error PyErr.valueError) => some (WersResult.caught valueErrorDiagnostic)
  | some (MetricsResult.error PyErr.attributeError) => some (WersResult.caught attributeErrorDiagnostic)
  | some (MetricsResult.error PyErr.zeroDivisionError) => some (WersResult.uncaught PyErr.zeroDivisionError)
  | some (MetricsResult.ok l) => some (WersResult.ok (l.map (fun r => r.wer)))

/-- The `wers` function on a single pair of scalars: `np.vectorize` on two
scalars returns the single result object, whose first entry is the scalar
`wer`; the same exceptions are caught as in the collection case. -/
def wersScalar (r h : TextVal) : Option WersScalarResult :=
  match calcV r h with
  | none => none
  | some (CalcVResult.error PyErr.valueError) => some (WersScalarResult.caught valueErrorDiagnostic)
  | some (CalcVResult.error PyErr.attributeError) => some (WersScalarResult.caught attributeErrorDiagnostic)
  | some (CalcVResult.error PyErr.zeroDivisionError) => some (WersScalarResult.uncaught PyErr.zeroDivisionError)
  | some (CalcVResult.ok e) => some (WersScalarResult.ok e.wer)

/-! Infrastructure lemmas. -/

/-- The fuel argument of `ldmF` is irrelevant as long as it is at least
`i + j`, so `ldm` satisfies the recurrence of the fill loop. -/
theorem ldmF_congr (rw hw : List String) :
    ∀ k f g i j, i + j = k → i + j ≤ f → i + j ≤ g →
      ldmF f rw hw i j = ldmF g rw hw i j := by
  intro k
  induction k using Nat.strong_induction_on with
  | _ k ih =>
    intro f g i j hk hf hg
    match i, j with
    | 0, j => cases f <;> cases g <;> rfl
    | i + 1, 0 => cases f <;> cases g <;> rfl
    | i + 1, j + 1 =>
      rcases f with _ | f
      · omega
      rcases g with _ | g
      · omega
      have h1 := ih (i + j) (by omega) f g i j rfl (by omega) (by omega)
      have h2 := ih (i + 1 + j) (by omega) f g (i + 1) j rfl (by omega) (by omega)
      have h3 := ih (i + (j + 1)) (by omega) f g i (j + 1) rfl (by omega) (by omega)
      simp only [ldmF, h1, h2, h3]

/-- Border of the matrix: `ldm[i][0] = i`. -/
theorem ldm_border_left (rw hw : List String) (i : Nat) : ldm rw hw i 0 = i := by
  cases i <;> rfl

/-- Border of the matrix: `ldm[0][j] = j`. -/
theorem ldm_border_top (rw hw : List String) (j : Nat) : ldm rw hw 0 j = j := by
  cases j <;> rfl

/-- The inner-cell recurrence of the fill loop, in terms of `ldm`. -/
theorem ldm_rec (rw hw : List String) (i j : Nat) :
    ldm rw hw (i + 1) (j + 1) =
      if rw.getD i "" = hw.getD j "" then ldm rw hw i j
      else
        min (ldm rw hw i j + 4)
          (min (ldm rw hw (i + 1) j + 3) (ldm rw hw i (j + 1) + 3)) := by
  have hbase : ldm rw hw (i + 1) (j + 1) =
      (if rw.getD i "" = hw.getD j "" then ldmF (i + 1 + j) rw hw i j
       else
         min (ldmF (i + 1 + j) rw hw i j + 4)
           (min (ldmF (i + 1 + j) rw hw (i + 1) j + 3)
             (ldmF (i + 1 + j) rw hw i (j + 1) + 3))) := rfl
  rw [hbase,
    ldmF_congr rw hw (i + j) (i + 1 + j) (i + j) i j rfl (by omega) (by omega),
    ldmF_congr rw hw (i + 1 + j) (i + 1 + j) (i + 1 + j) (i + 1) j rfl (by omega) (by omega),
    ldmF_congr rw hw (i + (j + 1)) (i + 1 + j) (i + (j + 1)) i (j + 1) rfl (by omega) (by omega)]
  rfl

/-- On the diagonal of an identical pair the matrix is zero. -/
theorem ldm_diag (rw : List String) : ∀ k, ldm rw rw k k = 0 := by
  intro k
  induction k with
  | zero => rfl
  | succ k ih => rw [ldm_rec, if_pos rfl, ih]

/-- The backtrace loop body never increases `i`. -/
theorem btStep_i_le (rw hw : List String) (s : BTState) : (btStep rw hw s).i ≤ s.i := by
  unfold btStep
  split_ifs <;> simp

/-- The backtrace loop body never increases `j`. -/
theorem btStep_j_le (rw hw : List String) (s : BTState) : (btStep rw hw s).j ≤ s.j := by
  unfold btStep
  split_ifs <;> simp

/-- A state on which the loop body does nothing but whose guard still
holds makes the backtrace loop spin forever. -/
theorem btRun_stuck (rw hw : List String) (s : BTState) (hstep : btStep rw hw s = s)
    (hne : ¬(s.i = 0 ∧ s.j = 0)) : ∀ fuel, btRun rw hw fuel s = none := by
  intro fuel
  induction fuel with
  | zero => simp [btRun, hne]
  | succ f ih => simp [btRun, hne, hstep, ih]

/-- On an identical pair the backtrace walks the diagonal down by pure
matches, recording nothing. -/
theorem btRun_diag (rw : List String) :
    ∀ fuel k a b c x y z, k ≤ fuel →
      btRun rw rw fuel ⟨k, k, a, b, c, x, y, z⟩ = some ⟨0, 0, a, b, c, x, y, z⟩ := by
  intro fuel
  induction fuel with
  | zero =>
    intro k a b c x y z hk
    have : k = 0 := by omega
    subst this
    simp [btRun]
  | succ f ih =>
    intro k a b c x y z hk
    cases k with
    | zero => simp [btRun]
    | succ k =>
      have hstep : btStep rw rw ⟨k + 1, k + 1, a, b, c, x, y, z⟩ = ⟨k, k, a, b, c, x, y, z⟩ := by
        simp [btStep]
      simp only [btRun, hstep]
      rw [if_neg (by simp)]
      exact ih k a b c x y z (by omega)

/-- Taking one more element appends the element at that index. -/
theorem take_succ_getD (l : List String) (k : Nat) (h : k < l.length) :
    l.take (k + 1) = l.take k ++ [l.getD k ""] := by
  rw [List.take_succ, List.getElem?_eq_getElem h]
  simp [List.getD_eq_getElem?_getD, List.getElem?_eq_getElem h]

/-- With an empty hypothesis the backtrace deletes every remaining
reference word, right to left. -/
theorem btRun_right_empty (rw : List String) :
    ∀ fuel k a b c x y z, k ≤ fuel → k ≤ rw.length →
      btRun rw [] fuel ⟨k, 0, a, b, c, x, y, z⟩ =
        some ⟨0, 0, a, b + k, c, x, y ++ (rw.take k).reverse, z⟩ := by
  intro fuel
  induction fuel with
  | zero =>
    intro k a b c x y z hk hlen
    have : k = 0 := by omega
    subst this
    simp [btRun]
  | succ f ih =>
    intro k a b c x y z hk hlen
    cases k with
    | zero => simp [btRun]
    | succ k =>
      have hstep : btStep rw [] ⟨k + 1, 0, a, b, c, x, y, z⟩ =
          ⟨k, 0, a, b + 1, c, x, y ++ [rw.getD k ""], z⟩ := by
        simp [btStep, ldm_border_left]
      simp only [btRun, hstep]
      rw [if_neg (by simp)]
      rw [ih k a (b + 1) c x (y ++ [rw.getD k ""]) z (by omega) (by omega)]
      rw [take_succ_getD rw k (by omega)]
      simp [List.append_assoc]
      omega

/-- With an empty reference the backtrace inserts every remaining
hypothesis word, right to left. -/
theorem btRun_left_empty (hw : List String) :
    ∀ fuel k a b c x y z, k ≤ fuel → k ≤ hw.length →
      btRun [] hw fuel ⟨0, k, a, b, c, x, y, z⟩ =
        some ⟨0, 0, a + k, b, c, x ++ (hw.take k).reverse, y, z⟩ := by
  intro fuel
  induction fuel with
  | zero =>
    intro k a b c x y z hk hlen
    have : k = 0 := by omega
    subst this
    simp [btRun]
  | succ f ih =>
    intro k a b c x y z hk hlen
    cases k with
    | zero => simp [btRun]
    | succ k =>
      have hstep : btStep [] hw ⟨0, k + 1, a, b, c, x, y, z⟩ =
          ⟨0, k, a + 1, b, c, x ++ [hw.getD k ""], y, z⟩ := by
        simp [btStep, ldm_border_top]
      simp only [btRun, hstep]
      rw [if_neg (by simp)]
      rw [ih k (a + 1) b c (x ++ [hw.getD k ""]) y z (by omega) (by omega)]
      rw [take_succ_getD hw k (by omega)]
      simp [List.append_assoc]
      omega

/-- A shorter take is a sublist of a longer take. -/
theorem take_sublist_take {α : Type} (l : List α) {m n : Nat} (h : m ≤ n) :
    List.Sublist (l.take m) (l.take n) := by
  have heq : l.take m = (l.take n).take m := by
    rw [List.take_take, min_eq_left h]
  rw [heq]
  exact List.take_sublist m (l.take n)

/-- Taking `i` elements splits off the element at index `i - 1`. -/
theorem take_pred_append (l : List String) (i : Nat) (h0 : 0 < i) (h : i ≤ l.length) :
    l.take i = l.take (i - 1) ++ [l.getD (i - 1) ""] := by
  cases i with
  | zero => omega
  | succ k => simpa using take_succ_getD l k (by omega)

/-- Main backtrace invariant: a finished run extends each recorded list by
a block of new records whose reversal is a sublist of the words strictly
before the current position, so the records are made at strictly
descending positions; the counters grow by the block lengths. -/
theorem btRun_delta (rw hw : List String) :
    ∀ fuel (s t : BTState), s.i ≤ rw.length → s.j ≤ hw.length →
      btRun rw hw fuel s = some t →
      ∃ dI dD dS,
        t.inserted_words = s.inserted_words ++ dI ∧
        t.deleted_words = s.deleted_words ++ dD ∧
        t.substituted_words = s.substituted_words ++ dS ∧
        t.insertions = s.insertions + dI.length ∧
        t.deletions = s.deletions + dD.length ∧
        t.substitutions = s.substitutions + dS.length ∧
        List.Sublist dI.reverse (hw.take s.j) ∧
        List.Sublist dD.reverse (rw.take s.i) ∧
        List.Sublist (dS.map Prod.fst).reverse (rw.take s.i) ∧
        List.Sublist (dS.map Prod.snd).reverse (hw.take s.j) := by
  intro fuel
  induction fuel with
  | zero =>
    intro s t hi hj h
    unfold btRun at h
    by_cases hg : s.i = 0 ∧ s.j = 0
    · rw [if_pos hg] at h
      cases Option.some.inj h
      refine ⟨[], [], [], ?_, ?_, ?_, ?_, ?_, ?_, ?_, ?_, ?_, ?_⟩ <;> simp
    · rw [if_neg hg] at h
      cases h
  | succ f ih =>
    intro s t hi hj h
    unfold btRun at h
    by_cases hg : s.i = 0 ∧ s.j = 0
    · rw [if_pos hg] at h
      cases Option.some.inj h
      refine ⟨[], [], [], ?_, ?_, ?_, ?_, ?_, ?_, ?_, ?_, ?_, ?_⟩ <;> simp
    · rw [if_neg hg] at h
      by_cases h1 : 0 < s.i ∧ 0 < s.j ∧ rw.getD (s.i - 1) "" = hw.getD (s.j - 1) ""
      · have hstep : btStep rw hw s =
            ⟨s.i - 1, s.j - 1, s.insertions, s.deletions, s.substitutions,
              s.inserted_words, s.deleted_words, s.substituted_words⟩ := by
          unfold btStep
          rw [if_pos h1]
        rw [hstep] at h
        obtain ⟨dI, dD, dS, e1, e2, e3, e4, e5, e6, s1, s2, s3, s4⟩ :=
          ih _ t (by show s.i - 1 ≤ rw.length; omega) (by show s.j - 1 ≤ hw.length; omega) h
        exact ⟨dI, dD, dS, e1, e2, e3, e4, e5, e6,
          s1.trans (take_sublist_take hw (by show s.j - 1 ≤ s.j; omega)),
          s2.trans (take_sublist_take rw (by show s.i - 1 ≤ s.i; omega)),
          s3.trans (take_sublist_take rw (by show s.i - 1 ≤ s.i; omega)),
          s4.trans (take_sublist_take hw (by show s.j - 1 ≤ s.j; omega))⟩
      by_cases h2 : 0 < s.i ∧ 0 < s.j ∧ ldm rw hw s.i s.j = ldm rw hw (s.i - 1) (s.j - 1) + 1
      · have hstep : btStep rw hw s =
            ⟨s.i - 1, s.j - 1, s.insertions, s.deletions, s.substitutions + 1,
              s.inserted_words, s.deleted_words,
              s.substituted_words ++ [(rw.getD (s.i - 1) "", hw.getD (s.j - 1) "")]⟩ := by
          unfold btStep
          rw [if_neg h1, if_pos h2]
        rw [hstep] at h
        obtain ⟨dI, dD, dS, e1, e2, e3, e4, e5, e6, s1, s2, s3, s4⟩ :=
          ih _ t (by show s.i - 1 ≤ rw.length; omega) (by show s.j - 1 ≤ hw.length; omega) h
        refine ⟨dI, dD, (rw.getD (s.i - 1) "", hw.getD (s.j - 1) "") :: dS,
          e1, e2, ?_, e4, e5, ?_, ?_, ?_, ?_, ?_⟩
        · rw [e3, List.append_assoc]
          rfl
        · rw [e6]
          simp
          omega
        · exact s1.trans (take_sublist_take hw (by show s.j - 1 ≤ s.j; omega))
        · exact s2.trans (take_sublist_take rw (by show s.i - 1 ≤ s.i; omega))
        · rw [take_pred_append rw s.i (by omega) hi]
          simpa using s3.append (List.Sublist.refl [rw.getD (s.i - 1) ""])
        · rw [take_pred_append hw s.j (by omega) hj]
          simpa using s4.append (List.Sublist.refl [hw.getD (s.j - 1) ""])
      by_cases h3 : 0 < s.j ∧ ldm rw hw s.i s.j = ldm rw hw s.i (s.j - 1) + 1
      · have hstep : btStep rw hw s =
            ⟨s.i, s.j - 1, s.insertions + 1, s.deletions, s.substitutions,
              s.inserted_words ++ [hw.getD (s.j - 1) ""], s.deleted_words,
              s.substituted_words⟩ := by
          unfold btStep
          rw [if_neg h1, if_neg h2, if_pos h3]
        rw [hstep] at h
        obtain ⟨dI, dD, dS, e1, e2, e3, e4, e5, e6, s1, s2, s3, s4⟩ :=
          ih _ t (by show s.i ≤ rw.length; omega) (by show s.j - 1 ≤ hw.length; omega) h
        refine ⟨hw.getD (s.j - 1) "" :: dI, dD, dS,
          ?_, e2, e3, ?_, e5, e6, ?_, s2, s3, ?_⟩
        · rw [e1, List.append_assoc]
          rfl
        · rw [e4]
          simp
          omega
        · rw [take_pred_append hw s.j (by omega) hj]
          simpa using s1.append (List.Sublist.refl [hw.getD (s.j - 1) ""])
        · exact s4.trans (take_sublist_take hw (by show s.j - 1 ≤ s.j; omega))
      by_cases h4 : 0 < s.i ∧ ldm rw hw s.i s.j = ldm rw hw (s.i - 1) s.j + 1
      · have hstep : btStep rw hw s =
            ⟨s.i - 1, s.j, s.insertions, s.deletions + 1, s.substitutions,
              s.inserted_words, s.deleted_words ++ [rw.getD (s.i - 1) ""],
              s.substituted_words⟩ := by
          unfold btStep
          rw [if_neg h1, if_neg h2, if_neg h3, if_pos h4]
        rw [hstep] at h
        obtain ⟨dI, dD, dS, e1, e2, e3, e4, e5, e6, s1, s2, s3, s4⟩ :=
          ih _ t (by show s.i - 1 ≤ rw.length; omega) (by show s.j ≤ hw.length; omega) h
        refine ⟨dI, rw.getD (s.i - 1) "" :: dD, dS,
          e1, ?_, e3, e4, ?_, e6, s1, ?_, ?_, s4⟩
        · rw [e2, List.append_assoc]
          rfl
        · rw [e5]
          simp
          omega
        · rw [take_pred_append rw s.i (by omega) hi]
          simpa using s2.append (List.Sublist.refl [rw.getD (s.i - 1) ""])
        · exact s3.trans (take_sublist_take rw (by show s.i - 1 ≤ s.i; omega))
      · have hstep : btStep rw hw s = s := by
          unfold btStep
          rw [if_neg h1, if_neg h2, if_neg h3, if_neg h4]
        rw [hstep] at h
        exact ih s t hi hj h

/-- Inversion of a successful `calculations` call: the reference is
non-empty, the backtrace finished in some state `s`, and the returned
record is assembled from `ldm[m][n]`, `m` and the fields of `s`. -/
theorem calculations_inv (ref hyp : String) (r : EditRecord)
    (h : calculations ref hyp = some (CalcResult.ok r)) :
    (tokenize ref).length ≠ 0 ∧
    ∃ s : BTState,
      btRun (tokenize ref) (tokenize hyp)
          ((tokenize ref).length + (tokenize hyp).length)
          (btInit (tokenize ref) (tokenize hyp)) = some s ∧
        r = ⟨((ldm (tokenize ref) (tokenize hyp) (tokenize ref).length (tokenize hyp).length : Nat) : ℚ) /
              (((tokenize ref).length : Nat) : ℚ),
            ldm (tokenize ref) (tokenize hyp) (tokenize ref).length (tokenize hyp).length,
            (tokenize ref).length, s.insertions, s.deletions, s.substitutions,
            s.inserted_words.reverse, s.deleted_words.reverse, s.substituted_words.reverse⟩ := by
  unfold calculations at h
  by_cases hm : (tokenize ref).length = 0
  · rw [if_pos hm] at h
    cases h
  · rw [if_neg hm] at h
    refine ⟨hm, ?_⟩
    cases hbt : btRun (tokenize ref) (tokenize hyp)
        ((tokenize ref).length + (tokenize hyp).length)
        (btInit (tokenize ref) (tokenize hyp)) with
    | none => rw [hbt] at h; cases h
    | some s =>
        rw [hbt] at h
        exact ⟨s, rfl, (CalcResult.ok.inj (Option.some.inj h)).symm⟩

/-- A successful elementwise run returns one record per input pair. -/
theorem runAll_ok_length : ∀ (ps : List (TextVal × TextVal)) (l : List EditRecord),
    runAll ps = some (MetricsResult.ok l) → l.length = ps.length := by
  intro ps
  induction ps with
  | nil =>
    intro l h
    unfold runAll at h
    rw [← MetricsResult.ok.inj (Option.some.inj h)]
    rfl
  | cons p rest ih =>
    intro l h
    unfold runAll at h
    cases hc : calcV p.1 p.2 with
    | none => rw [hc] at h; cases h
    | some cr =>
      rw [hc] at h
      cases cr with
      | error e => simp at h
      | ok r =>
        cases hrest : runAll rest with
        | none => rw [hrest] at h; cases h
        | some mr =>
          rw [hrest] at h
          cases mr with
          | error e => simp at h
          | ok l2 =>
            rw [← MetricsResult.ok.inj (Option.some.inj h)]
            simp [ih l2 hrest]

/-- Broadcasting a collection to its own length is the identity. -/
theorem bcast_self : ∀ l : List TextVal, bcast l l.length = l := by
  intro l
  unfold bcast
  split_ifs with h
  · cases l with
    | nil => simp at h
    | cons a t =>
      cases t with
      | nil => rfl
      | cons b t2 => simp at h
  · rfl

/-- On equal-length collections with a successful probe call, `metrics`
is the elementwise run over the zipped pairs. -/
theorem metrics_equal_length (rs hs : List TextVal) (e : EditRecord)
    (hne : rs ≠ []) (hlen : rs.length = hs.length)
    (hprobe : calcV (rs.getD 0 (TextVal.str "")) (hs.getD 0 (TextVal.str "")) =
      some (CalcVResult.ok e)) :
    metrics rs hs = runAll (rs.zip hs) := by
  have h0 : ¬(rs.length = 0 ∨ hs.length = 0) := by
    rintro (h | h)
    · exact hne (List.eq_nil_of_length_eq_zero h)
    · exact hne (List.eq_nil_of_length_eq_zero (hlen.trans h))
  have hbl : broadcastLen rs.length hs.length = some rs.length := by
    unfold broadcastLen
    rw [if_pos hlen]
  have hb2 : bcast hs rs.length = hs := by
    rw [hlen]
    exact bcast_self hs
  simp only [metrics, if_neg h0, hprobe, hbl, bcast_self rs, hb2]

/-- A successful `metrics` call on equal-length collections returns one
record per pair. -/
theorem metrics_ok_length (rs hs : List TextVal) (l : List EditRecord)
    (hlen : rs.length = hs.length)
    (h : metrics rs hs = some (MetricsResult.ok l)) : l.length = rs.length := by
  unfold metrics at h
  by_cases h0 : rs.length = 0 ∨ hs.length = 0
  · rw [if_pos h0] at h
    simp at h
  · rw [if_neg h0] at h
    cases hc : calcV (rs.getD 0 (TextVal.str "")) (hs.getD 0 (TextVal.str "")) with
    | none => rw [hc] at h; cases h
    | some cr =>
      rw [hc] at h
      cases cr with
      | error e => simp at h
      | ok e =>
        have hbl : broadcastLen rs.length hs.length = some rs.length := by
          unfold broadcastLen
          rw [if_pos hlen]
        rw [hbl] at h
        dsimp only at h
        have hb2 : bcast hs rs.length = hs := by
          rw [hlen]
          exact bcast_self hs
        rw [bcast_self rs, hb2] at h
        have := runAll_ok_length (rs.zip hs) l h
        rw [this, List.length_zip, hlen, min_self]

/-! Claim theorems. -/

/-- C1, counterexample: on the pair whose tokens are `[a, b, c]` and
`[a, x, c]`, `calculations` does not return the claimed breakdown
(1 substitution `(b, x)`, no insertions, no deletions). -/
theorem c1_claim_counterexample :
    calculations "a b c" "a x c" ≠
      some (CalcResult.ok ⟨4 / 3, 4, 3, 0, 0, 1, [], [], [("b", "x")]⟩) := by
  intro h
  have hact : calculations "a b c" "a x c" =
      some (CalcResult.ok ⟨4 / 3, 4, 3, 2, 2, 0, ["a", "x"], ["a", "b"], []⟩) := rfl
  rw [hact] at h
  simp at h

/-- C1, amended: for a reference tokenizing to `[a, b, c]` and a
hypothesis tokenizing to `[a, x, c]`, `calculations` returns
`distance = 4` and `wer = 4/3` as claimed, but the `+1` backtrace tests on
the weighted matrix classify the edits as `insertions = 2` with
`insertedWords = [a, x]` and `deletions = 2` with `deletedWords = [a, b]`,
and `substitutions = 0` with no substituted pairs. -/
theorem c1_amended (ref hyp : String) (h1 : tokenize ref = ["a", "b", "c"])
    (h2 : tokenize hyp = ["a", "x", "c"]) :
    calculations ref hyp =
      some (CalcResult.ok ⟨4 / 3, 4, 3, 2, 2, 0, ["a", "x"], ["a", "b"], []⟩) := by
  unfold calculations
  rw [h1, h2]
  rfl

/-- C1, witness for the amended theorem at the concrete strings. -/
theorem c1_amended_witness :
    tokenize "a b c" = ["a", "b", "c"] ∧ tokenize "a x c" = ["a", "x", "c"] ∧
    calculations "a b c" "a x c" =
      some (CalcResult.ok ⟨4 / 3, 4, 3, 2, 2, 0, ["a", "x"], ["a", "b"], []⟩) :=
  ⟨rfl, rfl, c1_amended "a b c" "a x c" rfl rfl⟩

/-- C2: the matrix has border `D[i][0] = i` and `D[0][j] = j`, every inner
cell `(i+1, j+1)` equals `D[i][j]` on a word match and otherwise
`min(D[i][j] + 4, min(D[i+1][j] + 3, D[i][j+1] + 3))`, and every record
returned by `calculations` reports `distance = D[m][n]`. -/
theorem c2_matrix_and_distance :
    (∀ rw hw : List String, ∀ i j : Nat,
      ldm rw hw i 0 = i ∧ ldm rw hw 0 j = j ∧
      ldm rw hw (i + 1) (j + 1) =
        (if rw.getD i "" = hw.getD j "" then ldm rw hw i j
         else
           min (ldm rw hw i j + 4)
             (min (ldm rw hw (i + 1) j + 3) (ldm rw hw i (j + 1) + 3)))) ∧
    (∀ ref hyp : String, ∀ r : EditRecord, calculations ref hyp = some (CalcResult.ok r) →
      r.ld = ldm (tokenize ref) (tokenize hyp) (tokenize ref).length (tokenize hyp).length) := by
  constructor
  · intro rw hw i j
    exact ⟨ldm_border_left rw hw i, ldm_border_top rw hw j, ldm_rec rw hw i j⟩
  · intro ref hyp r h
    obtain ⟨-, s, -, hr⟩ := calculations_inv ref hyp r h
    rw [hr]

/-- C2, witness: the matrix clauses at an inner cell of `[a]` vs `[x]` and
the distance report of `calculations "a" "a"`. -/
theorem c2_witness :
    (ldm ["a"] ["x"] 0 0 = 0 ∧ ldm ["a"] ["x"] 0 0 = 0 ∧
      ldm ["a"] ["x"] 1 1 =
        (if (["a"] : List String).getD 0 "" = (["x"] : List String).getD 0 "" then
          ldm ["a"] ["x"] 0 0
         else
           min (ldm ["a"] ["x"] 0 0 + 4)
             (min (ldm ["a"] ["x"] 1 0 + 3) (ldm ["a"] ["x"] 0 1 + 3)))) ∧
    (⟨0 / 1, 0, 1, 0, 0, 0, [], [], []⟩ : EditRecord).ld =
      ldm (tokenize "a") (tokenize "a") (tokenize "a").length (tokenize "a").length :=
  ⟨c2_matrix_and_distance.1 ["a"] ["x"] 0 0,
    c2_matrix_and_distance.2 "a" "a" ⟨0 / 1, 0, 1, 0, 0, 0, [], [], []⟩ rfl⟩

/-- C3, counterexample: on reference tokens `[a]` and hypothesis tokens
`[b]` the backtrace loop never reaches `i = 0, j = 0`: at `(1, 1)` the
words differ and no `+1` test matches the weighted cell value `4`, so the
loop body leaves the state unchanged forever. -/
theorem c3_claim_counterexample : ¬btTerminates ["a"] ["b"] := by
  intro hterm
  obtain ⟨fuel, hf⟩ := hterm
  have hstuck : btStep ["a"] ["b"] ⟨1, 1, 0, 0, 0, [], [], []⟩ =
      ⟨1, 1, 0, 0, 0, [], [], []⟩ := rfl
  have hrun := btRun_stuck ["a"] ["b"] ⟨1, 1, 0, 0, 0, [], [], []⟩ hstuck (by simp) fuel
  have hinit : btInit ["a"] ["b"] = ⟨1, 1, 0, 0, 0, [], [], []⟩ := rfl
  rw [hinit, hrun] at hf
  simp at hf

/-- C3, amended: the matrix construction is total, but the backtrace loop
is not; it does reach `i = 0, j = 0` whenever the two token sequences are
equal, or either of them is empty. -/
theorem c3_amended_termination (rw hw : List String)
    (h : rw = hw ∨ rw = [] ∨ hw = []) : btTerminates rw hw := by
  rcases h with h | h | h
  · subst h
    refine ⟨rw.length, ?_⟩
    show (btRun rw rw rw.length ⟨rw.length, rw.length, 0, 0, 0, [], [], []⟩).isSome
    rw [btRun_diag rw rw.length rw.length 0 0 0 [] [] [] (le_refl _)]
    rfl
  · subst h
    refine ⟨hw.length, ?_⟩
    show (btRun [] hw hw.length ⟨0, hw.length, 0, 0, 0, [], [], []⟩).isSome
    rw [btRun_left_empty hw hw.length hw.length 0 0 0 [] [] [] (le_refl _) (le_refl _)]
    rfl
  · subst h
    refine ⟨rw.length, ?_⟩
    show (btRun rw [] rw.length ⟨rw.length, 0, 0, 0, 0, [], [], []⟩).isSome
    rw [btRun_right_empty rw rw.length rw.length 0 0 0 [] [] [] (le_refl _) (le_refl _)]
    rfl

/-- C3, witness for the amended theorem on an identical pair. -/
theorem c3_amended_witness : btTerminates ["a"] ["a"] :=
  c3_amended_termination ["a"] ["a"] (Or.inl rfl)

/-- C4, counterexample: the whitespace-only reference is a non-empty
string, yet `calculations` on it and itself raises `ZeroDivisionError`
instead of returning the zero record. -/
theorem c4_claim_counterexample :
    (" " : String) ≠ "" ∧ calculations " " " " = some CalcResult.zeroDivisionError :=
  ⟨by decide, rfl⟩

/-- C4, amended: for every reference string that tokenizes to at least one
word, `calculations(R, R)` returns `distance = 0`, `wer = 0`, zero
insertion/deletion/substitution counts and three empty edit lists. -/
theorem c4_amended_identity (R : String) (hm : tokenize R ≠ []) :
    calculations R R =
      some (CalcResult.ok ⟨0, 0, (tokenize R).length, 0, 0, 0, [], [], []⟩) := by
  unfold calculations
  have hm0 : (tokenize R).length ≠ 0 := by simpa using hm
  rw [if_neg hm0]
  have hbt : btRun (tokenize R) (tokenize R) ((tokenize R).length + (tokenize R).length)
      (btInit (tokenize R) (tokenize R)) = some ⟨0, 0, 0, 0, 0, [], [], []⟩ :=
    btRun_diag (tokenize R) _ _ 0 0 0 [] [] [] (by omega)
  rw [hbt, ldm_diag (tokenize R) (tokenize R).length]
  norm_num

/-- C4, witness for the amended theorem at `R = "a"`. -/
theorem c4_amended_witness :
    tokenize "a" ≠ [] ∧
    calculations "a" "a" =
      some (CalcResult.ok ⟨0, 0, (tokenize "a").length, 0, 0, 0, [], [], []⟩) :=
  ⟨by decide, c4_amended_identity "a" (by decide)⟩

/-- C5: whenever `calculations` returns a record, each count equals the
length of its word list, and each returned list keeps the words in the
left-to-right order of the original token sequences: `insertedWords` is a
sublist of the hypothesis tokens, `deletedWords` of the reference tokens,
and the reference (resp. hypothesis) components of `substitutedWords` are
sublists of the reference (resp. hypothesis) tokens. -/
theorem c5_counts_and_order (ref hyp : String) (r : EditRecord)
    (h : calculations ref hyp = some (CalcResult.ok r)) :
    r.insertions = r.inserted_words.length ∧
    r.deletions = r.deleted_words.length ∧
    r.substitutions = r.substituted_words.length ∧
    List.Sublist r.inserted_words (tokenize hyp) ∧
    List.Sublist r.deleted_words (tokenize ref) ∧
    List.Sublist (r.substituted_words.map Prod.fst) (tokenize ref) ∧
    List.Sublist (r.substituted_words.map Prod.snd) (tokenize hyp) := by
  obtain ⟨hm, s, hbt, hr⟩ := calculations_inv ref hyp r h
  obtain ⟨dI, dD, dS, e1, e2, e3, e4, e5, e6, s1, s2, s3, s4⟩ :=
    btRun_delta (tokenize ref) (tokenize hyp) _ (btInit (tokenize ref) (tokenize hyp)) s
      (by show (tokenize ref).length ≤ (tokenize ref).length; exact le_refl _)
      (by show (tokenize hyp).length ≤ (tokenize hyp).length; exact le_refl _) hbt
  simp only [btInit, List.nil_append, Nat.zero_add, List.take_length] at e1 e2 e3 e4 e5 e6 s1 s2 s3 s4
  subst hr
  refine ⟨?_, ?_, ?_, ?_, ?_, ?_, ?_⟩
  · show s.insertions = s.inserted_words.reverse.length
    rw [e4, e1]
    simp
  · show s.deletions = s.deleted_words.reverse.length
    rw [e5, e2]
    simp
  · show s.substitutions = s.substituted_words.reverse.length
    rw [e6, e3]
    simp
  · show List.Sublist s.inserted_words.reverse (tokenize hyp)
    rw [e1]
    exact s1
  · show List.Sublist s.deleted_words.reverse (tokenize ref)
    rw [e2]
    exact s2
  · show List.Sublist (s.substituted_words.reverse.map Prod.fst) (tokenize ref)
    rw [e3]
    simpa [List.map_reverse] using s3
  · show List.Sublist (s.substituted_words.reverse.map Prod.snd) (tokenize hyp)
    rw [e3]
    simpa [List.map_reverse] using s4

/-- C5, witness at the pair `"a"` / `""` (one deletion). -/
theorem c5_witness :
    (⟨1 / 1, 1, 1, 0, 1, 0, [], ["a"], []⟩ : EditRecord).insertions =
        (⟨1 / 1, 1, 1, 0, 1, 0, [], ["a"], []⟩ : EditRecord).inserted_words.length ∧
    (⟨1 / 1, 1, 1, 0, 1, 0, [], ["a"], []⟩ : EditRecord).deletions =
        (⟨1 / 1, 1, 1, 0, 1, 0, [], ["a"], []⟩ : EditRecord).deleted_words.length ∧
    (⟨1 / 1, 1, 1, 0, 1, 0, [], ["a"], []⟩ : EditRecord).substitutions =
        (⟨1 / 1, 1, 1, 0, 1, 0, [], ["a"], []⟩ : EditRecord).substituted_words.length ∧
    List.Sublist (⟨1 / 1, 1, 1, 0, 1, 0, [], ["a"], []⟩ : EditRecord).inserted_words
      (tokenize "") ∧
    List.Sublist (⟨1 / 1, 1, 1, 0, 1, 0, [], ["a"], []⟩ : EditRecord).deleted_words
      (tokenize "a") ∧
    List.Sublist ((⟨1 / 1, 1, 1, 0, 1, 0, [], ["a"], []⟩ : EditRecord).substituted_words.map
      Prod.fst) (tokenize "a") ∧
    List.Sublist ((⟨1 / 1, 1, 1, 0, 1, 0, [], ["a"], []⟩ : EditRecord).substituted_words.map
      Prod.snd) (tokenize "") :=
  c5_counts_and_order "a" "" ⟨1 / 1, 1, 1, 0, 1, 0, [], ["a"], []⟩ rfl

/-- C6: whenever the reference tokenizes to zero words, `calculations`
raises `ZeroDivisionError` at `wer = ld / m`, for any hypothesis. -/
theorem c6_zero_division (ref hyp : String) (h : tokenize ref = []) :
    calculations ref hyp = some CalcResult.zeroDivisionError := by
  unfold calculations
  rw [if_pos (by rw [h]; rfl)]

/-- C6, witness at the empty reference string. -/
theorem c6_witness :
    tokenize "" = [] ∧ calculations "" "b" = some CalcResult.zeroDivisionError :=
  ⟨rfl, c6_zero_division "" "b" rfl⟩

/-- C7, counterexample: a reference collection of length 1 and a
hypothesis collection of length 3 have unequal lengths, yet `metrics`
succeeds by numpy broadcasting instead of failing with a shape-mismatch
error. -/
theorem c7_claim_counterexample :
    metrics [TextVal.str "a"] [TextVal.str "a", TextVal.str "a", TextVal.str "a"] =
      some (MetricsResult.ok
        [⟨0 / 1, 0, 1, 0, 0, 0, [], [], []⟩, ⟨0 / 1, 0, 1, 0, 0, 0, [], [], []⟩,
          ⟨0 / 1, 0, 1, 0, 0, 0, [], [], []⟩]) := rfl

/-- C7, amended: with both inputs collections, `metrics` raises
`ValueError` when either collection is empty; after a successful probe
call on the first pair, it raises the shape-mismatch `ValueError` exactly
when the lengths differ and neither collection has length 1 (numpy
broadcasting), and on equal-length collections it applies `calculations`
elementwise in input order, yielding one record per pair on success. -/
theorem c7_amended :
    (∀ rs hs : List TextVal, (rs = [] ∨ hs = []) →
      metrics rs hs = some (MetricsResult.error PyErr.valueError)) ∧
    (∀ rs hs : List TextVal, ∀ e : EditRecord,
      calcV (rs.getD 0 (TextVal.str "")) (hs.getD 0 (TextVal.str "")) =
        some (CalcVResult.ok e) →
      rs.length ≠ hs.length → rs.length ≠ 1 → hs.length ≠ 1 →
      metrics rs hs = some (MetricsResult.error PyErr.valueError)) ∧
    (∀ rs hs : List TextVal, ∀ e : EditRecord,
      calcV (rs.getD 0 (TextVal.str "")) (hs.getD 0 (TextVal.str "")) =
        some (CalcVResult.ok e) →
      rs.length = hs.length → rs ≠ [] →
      metrics rs hs = runAll (rs.zip hs)) ∧
    (∀ rs hs : List TextVal, ∀ l : List EditRecord, rs.length = hs.length →
      metrics rs hs = some (MetricsResult.ok l) → l.length = rs.length) := by
  refine ⟨?_, ?_, ?_, ?_⟩
  · intro rs hs h
    unfold metrics
    rcases h with h | h
    · rw [if_pos (Or.inl (by rw [h]; rfl))]
    · rw [if_pos (Or.inr (by rw [h]; rfl))]
  · intro rs hs e hprobe hne1 hne2 hne3
    by_cases h0 : rs.length = 0 ∨ hs.length = 0
    · unfold metrics
      rw [if_pos h0]
    · have hbl : broadcastLen rs.length hs.length = none := by
        unfold broadcastLen
        rw [if_neg hne1, if_neg hne2, if_neg hne3]
      unfold metrics
      rw [if_neg h0, hprobe]
      dsimp only
      rw [hbl]
  · intro rs hs e hprobe hlen hne
    exact metrics_equal_length rs hs e hne hlen hprobe
  · intro rs hs l hlen h
    exact metrics_ok_length rs hs l hlen h

/-- C7, witness: empty collections raise `ValueError`; lengths 2 vs 3
raise the shape-mismatch `ValueError`; equal-length singletons run
elementwise and return one record. -/
theorem c7_amended_witness :
    metrics [] [] = some (MetricsResult.error PyErr.valueError) ∧
    metrics [TextVal.str "a", TextVal.str "b"]
        [TextVal.str "a", TextVal.str "c", TextVal.str "d"] =
      some (MetricsResult.error PyErr.valueError) ∧
    metrics [TextVal.str "a"] [TextVal.str "a"] =
      runAll ([TextVal.str "a"].zip [TextVal.str "a"]) ∧
    ([(⟨0 / 1, 0, 1, 0, 0, 0, [], [], []⟩ : EditRecord)]).length = 1 :=
  ⟨c7_amended.1 [] [] (Or.inl rfl),
    c7_amended.2.1 [TextVal.str "a", TextVal.str "b"]
      [TextVal.str "a", TextVal.str "c", TextVal.str "d"]
      ⟨0 / 1, 0, 1, 0, 0, 0, [], [], []⟩ rfl (by decide) (by decide) (by decide),
    c7_amended.2.2.1 [TextVal.str "a"] [TextVal.str "a"]
      ⟨0 / 1, 0, 1, 0, 0, 0, [], [], []⟩ rfl rfl (by decide),
    c7_amended.2.2.2 [TextVal.str "a"] [TextVal.str "a"]
      [⟨0 / 1, 0, 1, 0, 0, 0, [], [], []⟩] rfl rfl⟩

/-- C8: on equal-length collections whose batch computation succeeds,
`wers` returns the `wer` fields of the records in order, one per input
pair; on a single pair of strings it returns the single scalar `wer`. -/
theorem c8_projection :
    (∀ (rs hs : List TextVal) (l : List EditRecord), rs.length = hs.length →
      metrics rs hs = some (MetricsResult.ok l) →
      wers rs hs = some (WersResult.ok (l.map (fun r => r.wer))) ∧
        (l.map (fun r => r.wer)).length = rs.length) ∧
    (∀ (r h : String) (e : EditRecord), calculations r h = some (CalcResult.ok e) →
      wersScalar (TextVal.str r) (TextVal.str h) = some (WersScalarResult.ok e.wer)) := by
  constructor
  · intro rs hs l hlen h
    constructor
    · unfold wers
      rw [h]
    · rw [List.length_map]
      exact metrics_ok_length rs hs l hlen h
  · intro r h e hc
    have hv : calcV (TextVal.str r) (TextVal.str h) = some (CalcVResult.ok e) := by
      unfold calcV
      dsimp only
      rw [hc]
    unfold wersScalar
    rw [hv]

/-- C8, witness: singleton collections and a scalar pair. -/
theorem c8_witness :
    wers [TextVal.str "a"] [TextVal.str "a"] =
      some (WersResult.ok
        (([(⟨0 / 1, 0, 1, 0, 0, 0, [], [], []⟩ : EditRecord)]).map (fun r => r.wer))) ∧
    (([(⟨0 / 1, 0, 1, 0, 0, 0, [], [], []⟩ : EditRecord)]).map (fun r => r.wer)).length = 1 ∧
    wersScalar (TextVal.str "a") (TextVal.str "a") =
      some (WersScalarResult.ok (⟨0 / 1, 0, 1, 0, 0, 0, [], [], []⟩ : EditRecord).wer) :=
  ⟨(c8_projection.1 [TextVal.str "a"] [TextVal.str "a"]
      [⟨0 / 1, 0, 1, 0, 0, 0, [], [], []⟩] rfl rfl).1,
    (c8_projection.1 [TextVal.str "a"] [TextVal.str "a"]
      [⟨0 / 1, 0, 1, 0, 0, 0, [], [], []⟩] rfl rfl).2,
    c8_projection.2 "a" "a" ⟨0 / 1, 0, 1, 0, 0, 0, [], [], []⟩ rfl⟩

/-- C9: when the batch computation raises the shape-mismatch `ValueError`
or the non-string `AttributeError`, `wers` catches it, prints the
corresponding human-readable diagnostic, and returns `None` instead of
propagating the exception. -/
theorem c9_catches (rs hs : List TextVal) :
    (metrics rs hs = some (MetricsResult.error PyErr.valueError) →
      wers rs hs = some (WersResult.caught valueErrorDiagnostic)) ∧
    (metrics rs hs = some (MetricsResult.error PyErr.attributeError) →
      wers rs hs = some (WersResult.caught attributeErrorDiagnostic)) := by
  constructor <;> intro h <;> (unfold wers; rw [h])

/-- C9, witness: a shape failure and a type failure are both caught. -/
theorem c9_witness :
    wers [] [] = some (WersResult.caught valueErrorDiagnostic) ∧
    wers [TextVal.numeric] [TextVal.str "a"] =
      some (WersResult.caught attributeErrorDiagnostic) :=
  ⟨(c9_catches [] []).1 rfl, (c9_catches [TextVal.numeric] [TextVal.str "a"]).2 rfl⟩

/-- C10: with a non-empty reference (`m ≥ 1` tokens) and a hypothesis
tokenizing to zero words, `calculations` returns `distance = m`,
`wer = 1`, `deletions = m` with `deletedWords` equal to the full
reference token list in order, and no insertions or substitutions. -/
theorem c10_empty_hypothesis (ref hyp : String) (hh : tokenize hyp = [])
    (hr : tokenize ref ≠ []) :
    calculations ref hyp =
      some (CalcResult.ok
        ⟨1, (tokenize ref).length, (tokenize ref).length, 0, (tokenize ref).length, 0,
          [], tokenize ref, []⟩) := by
  unfold calculations
  have hm0 : (tokenize ref).length ≠ 0 := by simpa using hr
  rw [hh, if_neg hm0]
  simp only [List.length_nil]
  have hbt : btRun (tokenize ref) [] ((tokenize ref).length + 0)
      (btInit (tokenize ref) []) =
      some ⟨0, 0, 0, 0 + (tokenize ref).length, 0, [],
        [] ++ ((tokenize ref).take (tokenize ref).length).reverse, []⟩ := by
    show btRun (tokenize ref) [] ((tokenize ref).length + 0)
        ⟨(tokenize ref).length, 0, 0, 0, 0, [], [], []⟩ = _
    exact btRun_right_empty (tokenize ref) ((tokenize ref).length + 0) (tokenize ref).length
      0 0 0 [] [] [] (by omega) (le_refl _)
  rw [hbt, ldm_border_left]
  have hcast : (((tokenize ref).length : Nat) : ℚ) ≠ 0 := Nat.cast_ne_zero.mpr hm0
  simp [div_self hcast, List.take_length]

/-- C10, witness at `"a b"` vs `""`. -/
theorem c10_witness :
    tokenize "" = [] ∧ tokenize "a b" ≠ [] ∧
    calculations "a b" "" =
      some (CalcResult.ok
        ⟨1, (tokenize "a b").length, (tokenize "a b").length, 0, (tokenize "a b").length, 0,
          [], tokenize "a b", []⟩) :=
  ⟨rfl, by decide, c10_empty_hypothesis "a b" "" rfl (by decide)⟩

end Werpy
